import Mathlib

/-!
Verification of the citra media-ingestion core (previnder/citra).

This file gives a shallow embedding, in Lean 4, of the parts of the
repository that the specification talks about:

* the geometry calculator `ContainInResolution` (src/image.go), whose
  float64 arithmetic is modelled by exact rational arithmetic (the Go
  `int(x)` conversion becomes truncation toward zero of a rational);
* the color sampler `AverageColor` (src/image.go), over an abstract
  decoded pixel grid;
* the identifier codec of pkg/luid (src/pkg/luid/luid.go), including a
  faithful model of Go's `encoding/hex.Decode` (go1.17 standard library),
  whose write into a fixed 12-byte destination can run out of bounds;
* the storage orchestrator `SaveImage` / `GetImage` / `DeleteImage` and
  the folder allocator `createImagesFolder` (src/db.go), as a state
  machine over an explicit relational + filesystem state.  The external
  codec (bimg) is modelled by a `Buffer` carrying its decoded size and a
  `Codec` supplying the encoded byte count of a rendition.
-/

deriving instance DecidableEq for Except

namespace Citra

/-- Truncation toward zero of a rational, modelling Go's `int(x)` conversion
of a `float64` value.  All uses in this development are at nonnegative
arguments, where it coincides with the floor. -/
def goTrunc (q : ℚ) : ℤ :=
  if 0 ≤ q then ⌊q⌋ else ⌈q⌉

/-- `ImageFit` is a string type in the source (`type ImageFit string`). -/
abbrev ImageFit := String

/-- `ImageFitCover = ImageFit("cover")` from src/image.go. -/
def ImageFitCover : ImageFit := "cover"

/-- `ImageFitContain = ImageFit("contain")` from src/image.go. -/
def ImageFitContain : ImageFit := "contain"

/-- `ImageSize` from src/image.go. -/
structure ImageSize where
  width : ℤ
  height : ℤ
deriving DecidableEq, Repr

/-- `ImageSize.String` from src/image.go: bare number when the two sides are
equal, otherwise `WxH`. -/
def imageSizeString (s : ImageSize) : String :=
  if s.width = s.height then toString s.width
  else toString s.width ++ "x" ++ toString s.height

/-- `ContainInResolution(width, height, w, h)` from src/image.go, lines
120-133, with the float64 arithmetic carried out in exact rational
arithmetic.  `width`/`height` are the source dimensions, `w`/`h` the
bounding box; the two conditional rescalings and the final truncating
conversions mirror the source line by line. -/
def ContainInResolution (width height w h : ℤ) : ℤ × ℤ :=
  let x0 : ℚ := (width : ℚ)
  let y0 : ℚ := (height : ℚ)
  let x1 : ℚ := if w < width then ((w : ℚ) / (width : ℚ)) * (width : ℚ) else x0
  let y1 : ℚ := if w < width then ((w : ℚ) / (width : ℚ)) * (height : ℚ) else y0
  let x2 : ℚ := if (h : ℚ) < y1 then ((h : ℚ) / y1) * x1 else x1
  let y2 : ℚ := if (h : ℚ) < y1 then ((h : ℚ) / y1) * y1 else y1
  (goTrunc x2, goTrunc y2)

/-! ## Color sampler (src/image.go, `AverageColor`) -/

/-- `RGB` from src/image.go: color values intended to lie in (0, 255). -/
structure RGB where
  R : ℤ
  G : ℤ
  B : ℤ
deriving DecidableEq, Repr

/-- The horizontal/vertical sampling step of `AverageColor`:
`int(math.Floor(float64(n)/100.0))`, replaced by `1` when it is `≤ 0`.
For a natural `n` the float64 floor equals natural division by 100. -/
def avgSteps (n : ℕ) : ℕ :=
  if n / 100 = 0 then 1 else n / 100

/-- The step the specification claims instead: `ceil(n/100)` with a minimum
of 1.  This definition follows the spec's words, for comparison with
`avgSteps` taken from the source. -/
def specCeilStep (n : ℕ) : ℕ :=
  max 1 ((n + 99) / 100)

/-- The indices visited by Go's `for i := 0; i < bound; i += step` loop
(for `step ≥ 1`): `0, step, 2*step, …` while below `bound`. -/
def sampleIndices (bound step : ℕ) : List ℕ :=
  (List.range ((bound + step - 1) / step)).map (fun k => k * step)

/-- A decoded pixel grid: the `image.Image` collaborator.  `pixel i j`
returns the r, g, b channel values of `img.At(i, j).RGBA()`. -/
structure PixelGrid where
  width : ℕ
  height : ℕ
  pixel : ℕ → ℕ → ℕ × ℕ × ℕ

/-- One accumulator update of `AverageColor`: `acc = (acc + channel) / 2`
on each of the three channels (float64 modelled by ℚ). -/
def accumPixel (acc : ℚ × ℚ × ℚ) (c : ℕ × ℕ × ℕ) : ℚ × ℚ × ℚ :=
  ((acc.1 + (c.1 : ℚ)) / 2, (acc.2.1 + (c.2.1 : ℚ)) / 2, (acc.2.2 + (c.2.2 : ℚ)) / 2)

/-- The double sampling loop of `AverageColor`: outer loop over the
horizontal indices, inner loop over the vertical indices. -/
def averageColorFold (g : PixelGrid) : ℚ × ℚ × ℚ :=
  let xs := sampleIndices g.width (avgSteps g.width)
  let ys := sampleIndices g.height (avgSteps g.height)
  xs.foldl (fun acc i => ys.foldl (fun acc2 j => accumPixel acc2 (g.pixel i j)) acc) (0, 0, 0)

/-- `AverageColor` from src/image.go, lines 137-168: sample, then normalize
the three accumulators by their total, scaled by 255 and truncated. -/
def AverageColor (g : PixelGrid) : RGB :=
  let acc := averageColorFold g
  let x := acc.1 + acc.2.1 + acc.2.2
  if 0 < x then
    ⟨goTrunc (acc.1 / x * 255), goTrunc (acc.2.1 / x * 255), goTrunc (acc.2.2 / x * 255)⟩
  else ⟨0, 0, 0⟩

/-! ## Identifier codec (src/pkg/luid/luid.go and Go's encoding/hex) -/

/-- `fromHexChar` from Go's encoding/hex (go1.17): the value of a single
hexadecimal digit, or `none` for any other character. -/
def fromHexChar (c : Char) : Option ℕ :=
  if '0' ≤ c ∧ c ≤ '9' then some (c.toNat - '0'.toNat)
  else if 'a' ≤ c ∧ c ≤ 'f' then some (c.toNat - 'a'.toNat + 10)
  else if 'A' ≤ c ∧ c ≤ 'F' then some (c.toNat - 'A'.toNat + 10)
  else none

/-- Errors of Go's `hex.Decode`. -/
inductive HexErr where
  | invalidByte (c : Char)
  | errLength
deriving DecidableEq, Repr

/-- Outcome of running `hex.Decode` into a fixed-size destination: a byte
count and decoded bytes, an error with the count decoded so far, or a
runtime panic (index out of range on the destination array). -/
inductive HexOutcome where
  | ok (n : ℕ) (bytes : List ℕ)
  | err (n : ℕ) (e : HexErr)
  | panicked
deriving DecidableEq, Repr

/-- The loop of `hex.Decode(dst, src)` from Go's encoding/hex (go1.17):
consumes `src` two characters at a time, writing `dst[i]` for `i = 0, 1, …`.
Writing at `i ≥ dstLen` is an out-of-bounds write on the Go array and
panics.  A trailing odd character yields `ErrLength` (after checking that
the character is a hex digit). -/
def hexDecodeAux (dstLen : ℕ) (i : ℕ) (acc : List ℕ) : List Char → HexOutcome
  | p :: q :: rest =>
    match fromHexChar p with
    | none => .err i (.invalidByte p)
    | some a =>
      match fromHexChar q with
      | none => .err i (.invalidByte q)
      | some b =>
        if i < dstLen then hexDecodeAux dstLen (i + 1) (acc ++ [16 * a + b]) rest
        else .panicked
  | [p] =>
    match fromHexChar p with
    | none => .err i (.invalidByte p)
    | some _ => .err i .errLength
  | [] => .ok i acc

/-- Result of `ID.UnmarshalText`: success with the 12 decoded bytes, a
format error, or a panic propagated from `hex.Decode`. -/
inductive IDParse where
  | ok (bytes : List ℕ)
  | formatError
  | panicked
deriving DecidableEq, Repr

/-- `ID.UnmarshalText` from src/pkg/luid/luid.go, lines 74-83: run
`hex.Decode` into the 12-byte array, fail on a decode error, and fail with
a format error when fewer than 12 bytes were produced. -/
def idUnmarshalText (text : List Char) : IDParse :=
  match hexDecodeAux 12 0 [] text with
  | .panicked => .panicked
  | .err _ _ => .formatError
  | .ok n bytes => if n ≠ 12 then .formatError else .ok bytes

/-- `FromString` from src/pkg/luid/luid.go, lines 39-42. -/
def idFromString (s : String) : IDParse :=
  idUnmarshalText s.data

/-! ## Storage orchestrator (src/db.go) -/

/-- `MaxImagesPerFolder` from src/db.go. -/
def MaxImagesPerFolder : ℕ := 5000

/-- Error taxonomy of the storage operations. -/
inductive DBError where
  | unsupportedImage
  | invalidImageFit
  | noDefaultImage
  | notFound
deriving DecidableEq, Repr

/-- The raw upload buffer as seen through the bimg codec boundary:
`valid` says whether the codec can parse it, `width`/`height` are its
decoded dimensions, `byteLen` its length (`len(buf)`). -/
structure Buffer where
  valid : Bool
  width : ℤ
  height : ℤ
  byteLen : ℕ
deriving DecidableEq, Repr

/-- The external codec collaborator: `encLen w h` is the byte length of the
encoded JPEG produced at realized dimensions `w × h`. -/
structure Codec where
  encLen : ℤ → ℤ → ℕ

/-- `GetImageSize` from src/image.go: the decoded source dimensions, or an
unsupported-format error. -/
def GetImageSize (b : Buffer) : Except DBError (ℤ × ℤ) :=
  if b.valid then .ok (b.width, b.height) else .error .unsupportedImage

/-- `ToJPEG` from src/image.go, lines 172-198: convert (fails on an invalid
buffer), then realize dimensions per the fit policy — the bound itself for
cover, `ContainInResolution` against the source size for contain, and an
invalid-fit error otherwise. -/
def ToJPEG (codec : Codec) (b : Buffer) (maxWidth maxHeight : ℤ) (fit : ImageFit) :
    Except DBError (ℕ × ImageSize) :=
  if b.valid = false then .error .unsupportedImage
  else if fit = ImageFitCover then
    .ok (codec.encLen maxWidth maxHeight, ⟨maxWidth, maxHeight⟩)
  else if fit = ImageFitContain then
    let r := ContainInResolution b.width b.height maxWidth maxHeight
    .ok (codec.encLen r.1 r.2, ⟨r.1, r.2⟩)
  else .error .invalidImageFit

/-- `SaveImageArg` from src/db.go. -/
structure SaveImageArg where
  maxWidth : ℤ
  maxHeight : ℤ
  imageFit : ImageFit
  isDefault : Bool
deriving DecidableEq, Repr

/-- The default-selection loop at the top of `SaveImage`: the zero value of
`SaveImageArg` (whose `ImageFit` is the empty string), overwritten by every
entry marked default. -/
def selectDefault (copies : List SaveImageArg) : SaveImageArg :=
  copies.foldl (fun acc item => if item.isDefault then item else acc)
    { maxWidth := 0, maxHeight := 0, imageFit := "", isDefault := false }

/-- `ImageCopy` from src/db.go. -/
structure ImageCopy where
  width : ℤ
  height : ℤ
  maxWidth : ℤ
  maxHeight : ℤ
  imageFit : ImageFit
  size : ℕ
deriving DecidableEq, Repr

/-- `strings.ToLower` restricted to ASCII, which covers every `ImageFit`
value (`"cover"`, `"contain"`). -/
def asciiToLower (s : String) : String :=
  ⟨s.data.map (fun c => if 'A' ≤ c ∧ c ≤ 'Z' then Char.ofNat (c.toNat + 32) else c)⟩

/-- `ImageCopy.Filename` from src/db.go, line 37-39. -/
def copyFilename (c : ImageCopy) (imageID : String) : String :=
  imageID ++ "_" ++ toString c.maxWidth ++ "_" ++ toString c.maxHeight ++ "_" ++
    asciiToLower c.imageFit ++ ".jpg"

/-- A row of the `folders` table (`total_size` is never read by the code
under verification and is omitted). -/
structure Folder where
  id : ℕ
  imagesCount : ℕ
deriving DecidableEq, Repr

/-- A row of the `images` table.  The identifier is carried as its hex
string (also the on-disk filename stem).  The stored average color is not
read by any claim and is omitted. -/
structure ImageRow where
  id : String
  folderId : ℕ
  width : ℤ
  height : ℤ
  maxWidth : ℤ
  maxHeight : ℤ
  size : ℕ
  uploadedSize : ℕ
  copies : List ImageCopy
  createdAt : ℕ
  isDeleted : Bool
  deletedAt : Option ℕ
deriving DecidableEq, Repr

/-- The two storage substrates: the relational store (`folders` with its
auto-increment counter, `images`) and the filesystem (`dirs` of created
shard directories, `files` as pairs of shard id and filename). -/
structure State where
  folders : List Folder
  nextFolderId : ℕ
  images : List ImageRow
  dirs : List ℕ
  files : List (ℕ × String)
deriving DecidableEq, Repr

/-- The empty store: no folders, no images, no files; MySQL auto-increment
starts at 1. -/
def initState : State :=
  { folders := [], nextFolderId := 1, images := [], dirs := [], files := [] }

/-- `select id, images_count from folders order by id desc limit 1`:
the folder row with the highest id, if any. -/
def topFolder : List Folder → Option Folder
  | [] => none
  | f :: rest => some (rest.foldl (fun a b => if a.id < b.id then b else a) f)

/-- `insert into folders () values ()` plus `os.MkdirAll`: a new folder row
with the next auto-increment id and a zero count (column default), and a
matching directory on disk. -/
def mkFolder (st : State) : State × ℕ :=
  let id := st.nextFolderId
  ({ st with folders := st.folders ++ [⟨id, 0⟩], nextFolderId := id + 1,
             dirs := st.dirs ++ [id] }, id)

/-- `createImagesFolder` from src/db.go, lines 245-277: reuse the
highest-numbered folder unless there is none or its recorded count has
reached `MaxImagesPerFolder`, in which case create a new folder row and
directory. -/
def createImagesFolder (st : State) : State × ℕ :=
  match topFolder st.folders with
  | none => mkFolder st
  | some f => if MaxImagesPerFolder ≤ f.imagesCount then mkFolder st else (st, f.id)

/-- `ioutil.WriteFile` into the shard directory. -/
def writeFile (st : State) (folderId : ℕ) (name : String) : State :=
  { st with files := st.files ++ [(folderId, name)] }

/-- `saveImageCopy` from src/db.go, lines 218-241: encode the copy, build
its `ImageCopy` record, and write its file. -/
def saveImageCopy (codec : Codec) (buf : Buffer) (arg : SaveImageArg) (folderId : ℕ)
    (imageID : String) (st : State) : State × Except DBError ImageCopy :=
  match ToJPEG codec buf arg.maxWidth arg.maxHeight arg.imageFit with
  | .error e => (st, .error e)
  | .ok (len, size) =>
    let c : ImageCopy :=
      { width := size.width, height := size.height, maxWidth := arg.maxWidth,
        maxHeight := arg.maxHeight, imageFit := arg.imageFit, size := len }
    (writeFile st folderId (copyFilename c imageID), .ok c)

/-- The copy loop of `SaveImage` (src/db.go, lines 162-188): skip default
entries; for contain entries, resolve against the original source
dimensions and skip when a previously realized contain size matches;
otherwise save the copy and register its realized size. -/
def saveCopiesLoop (codec : Codec) (buf : Buffer) (ow oh : ℤ) (folderId : ℕ)
    (imageID : String) :
    List SaveImageArg → State → List ImageCopy → List ImageSize →
      State × Except DBError (List ImageCopy)
  | [], st, saved, _ => (st, .ok saved)
  | item :: rest, st, saved, containSizes =>
    if item.isDefault then
      saveCopiesLoop codec buf ow oh folderId imageID rest st saved containSizes
    else
      let skip :=
        if item.imageFit = ImageFitContain then
          let wh := ContainInResolution ow oh item.maxWidth item.maxHeight
          containSizes.any (fun s => s.width == wh.1 && s.height == wh.2)
        else false
      if skip then saveCopiesLoop codec buf ow oh folderId imageID rest st saved containSizes
      else
        match saveImageCopy codec buf item folderId imageID st with
        | (st2, .error e) => (st2, .error e)
        | (st2, .ok c) =>
          let containSizes2 :=
            if item.imageFit = ImageFitContain then containSizes ++ [⟨c.width, c.height⟩]
            else containSizes
          saveCopiesLoop codec buf ow oh folderId imageID rest st2 (saved ++ [c]) containSizes2

/-- The base URL of `DBImage.GenerateURLs` (src/db.go, line 86). -/
def genURL (row : ImageRow) : String :=
  "/images/" ++ toString row.folderId ++ "/" ++ row.id ++ ".jpg"

/-- `DBImage.GenerateURLs` from src/db.go, lines 83-93: the base URL
followed by one query-parameterized URL per catalog entry, whose query the
source builds as `size=<MaxWidth>x<MaxHeight>&sort=<fit>`. -/
def GenerateURLs (row : ImageRow) : String × List String :=
  let url := genURL row
  (url, [url] ++ row.copies.map (fun item =>
    url ++ "?" ++ ("size=" ++ toString item.maxWidth ++ "x" ++ toString item.maxHeight ++
      "&sort=" ++ item.imageFit)))

/-- The record returned to callers: the row plus its derived URLs. -/
structure DBImageOut where
  row : ImageRow
  url : String
  urls : List String
deriving DecidableEq, Repr

/-- `GetImage` from src/db.go, lines 280-309: single lookup by identifier
(deleted rows included), decorated with the derived URLs. -/
def GetImage (st : State) (id : String) : Except DBError DBImageOut :=
  match st.images.find? (fun r => r.id == id) with
  | none => .error .notFound
  | some r => .ok ⟨r, (GenerateURLs r).1, (GenerateURLs r).2⟩

/-- `SaveImage` from src/db.go, lines 113-215: select the default spec,
read the source size, reject a missing default, encode the default
rendition, open a transaction, allocate a shard, write the default file,
run the copy loop with its dedup set seeded by a contain default, insert
the metadata row, commit, and re-read the record.  On a copy-loop failure
the transaction is rolled back: relational changes are undone while files
already written, directories created, and the auto-increment counter
remain.  (The prominent-color computation runs on the JPEG the function
itself just encoded and cannot fail; its stored value is not modelled.) -/
def SaveImage (codec : Codec) (st : State) (buf : Buffer) (copies : List SaveImageArg)
    (newId : String) (now : ℕ) : State × Except DBError DBImageOut :=
  let defaultCopy := selectDefault copies
  match GetImageSize buf with
  | .error e => (st, .error e)
  | .ok (originalWidth, originalHeight) =>
    if defaultCopy.isDefault = false then (st, .error .noDefaultImage)
    else
      match ToJPEG codec buf defaultCopy.maxWidth defaultCopy.maxHeight defaultCopy.imageFit with
      | .error e => (st, .error e)
      | .ok (jpgLen, size) =>
        let r1 := createImagesFolder st
        let st2 := writeFile r1.1 r1.2 (newId ++ ".jpg")
        let containSizes0 := if defaultCopy.imageFit = ImageFitContain then [size] else []
        match saveCopiesLoop codec buf originalWidth originalHeight r1.2 newId copies st2 []
            containSizes0 with
        | (st3, .error e) =>
          ({ st3 with folders := st.folders, images := st.images }, .error e)
        | (st3, .ok savedCopies) =>
          let row : ImageRow :=
            { id := newId, folderId := r1.2, width := size.width, height := size.height,
              maxWidth := defaultCopy.maxWidth, maxHeight := defaultCopy.maxHeight,
              size := jpgLen, uploadedSize := buf.byteLen, copies := savedCopies,
              createdAt := now, isDeleted := false, deletedAt := none }
          let st4 := { st3 with images := st3.images ++ [row] }
          (st4, GetImage st4 newId)

/-- `DeleteImage` from src/db.go, lines 313-354: fetch the record; if it is
already soft-deleted return it unchanged with no further effect; otherwise
set the flag and timestamp in a transaction, commit, remove every file in
the shard directory whose name has the identifier as prefix, and return
the record with the flag and timestamp set. -/
def DeleteImage (st : State) (id : String) (now : ℕ) : State × Except DBError DBImageOut :=
  match GetImage st id with
  | .error e => (st, .error e)
  | .ok image =>
    if image.row.isDeleted then (st, .ok image)
    else
      let st1 := { st with images := st.images.map (fun (r : ImageRow) =>
        if r.id == id then { r with isDeleted := true, deletedAt := some now } else r) }
      let st2 := { st1 with files := st1.files.filter (fun f =>
        !(f.1 == image.row.folderId && image.row.id.data.isPrefixOf f.2.data)) }
      (st2, .ok ⟨{ image.row with isDeleted := true, deletedAt := some now },
        image.url, image.urls⟩)

/-! ## Concrete instances used by individual claims -/

/-- A concrete codec oracle (the encoded byte count plays no role in any
claim). -/
def codec0 : Codec := ⟨fun _ _ => 0⟩

/-- A concrete valid 4000×3000 upload buffer. -/
def buf4000 : Buffer := ⟨true, 4000, 3000, 100⟩

/-- A single default contain spec bounded by 5000×5000. -/
def specsOneDefault : List SaveImageArg := [⟨5000, 5000, "contain", true⟩]

/-- The spec list of the specification's concrete example: a non-default
1080×720 contain copy and a default 5000×5000 contain rendition. -/
def specsExample : List SaveImageArg :=
  [⟨1080, 720, "contain", false⟩, ⟨5000, 5000, "contain", true⟩]

/-- `n` sequential `SaveImage` calls starting from the empty store, with
fresh identifiers `"0", "1", …` and increasing timestamps. -/
def runSaves (codec : Codec) (buf : Buffer) (specs : List SaveImageArg) : ℕ → State
  | 0 => initState
  | n + 1 => (SaveImage codec (runSaves codec buf specs n) buf specs (toString n) n).1

/-- A default 5000×5000 contain spec plus two contain specs that resolve,
for a 4000×3000 source, to the same realized size as the default. -/
def specsDedup : List SaveImageArg :=
  [⟨5000, 5000, "contain", true⟩, ⟨6000, 5000, "contain", false⟩,
   ⟨7000, 6000, "contain", false⟩]

/-- A spec list with no entry marked default. -/
def specsNoDefault : List SaveImageArg := [⟨100, 100, "contain", false⟩]

/-- A concrete stored record with one 600×600 cover copy. -/
def rowSquareCopy : ImageRow :=
  { id := "ab", folderId := 1, width := 600, height := 600, maxWidth := 600,
    maxHeight := 600, size := 1, uploadedSize := 2,
    copies := [⟨600, 600, 600, 600, "cover", 1⟩], createdAt := 0, isDeleted := false,
    deletedAt := none }

/-- A concrete stored record that is not yet deleted, with one contain copy. -/
def rowLive : ImageRow :=
  { id := "ab", folderId := 1, width := 600, height := 400, maxWidth := 700,
    maxHeight := 700, size := 1, uploadedSize := 2,
    copies := [⟨300, 200, 300, 300, "contain", 1⟩], createdAt := 0, isDeleted := false,
    deletedAt := none }

/-- A concrete store holding `rowLive` with its files on disk (plus one
unrelated file). -/
def stLive : State :=
  { folders := [⟨1, 0⟩], nextFolderId := 2, images := [rowLive], dirs := [1],
    files := [(1, "ab.jpg"), (1, "ab_300_300_contain.jpg"), (1, "zz.jpg")] }

/-- `rowLive` after being soft-deleted at time 5. -/
def rowLiveDeleted : ImageRow :=
  { rowLive with isDeleted := true, deletedAt := some 5 }

/-- The store reached by deleting `rowLive` from `stLive` at time 5: the
row is flagged, and both files carrying the identifier prefix are gone. -/
def stLiveDeleted : State :=
  { folders := [⟨1, 0⟩], nextFolderId := 2, images := [rowLiveDeleted], dirs := [1],
    files := [(1, "zz.jpg")] }

/-- The record returned by the first delete of `rowLive`. -/
def outLiveDeleted : DBImageOut :=
  ⟨rowLiveDeleted, "/images/1/ab.jpg",
    ["/images/1/ab.jpg", "/images/1/ab.jpg?size=300x300&sort=contain"]⟩

end Citra

namespace Citra

theorem goTrunc_intCast (n : ℤ) : goTrunc (n : ℚ) = n := by
  unfold goTrunc
  split <;> simp

theorem goTrunc_of_nonneg (q : ℚ) (h : 0 ≤ q) : goTrunc q = ⌊q⌋ := by
  unfold goTrunc
  simp [h]

end Citra

namespace Citra

/-- C3: for all positive `srcW, srcH, boundW, boundH`, the contain-fit
computation `ContainInResolution` returns `(w, h)` with `w ≤ boundW` and
`h ≤ boundH`; both outputs are the floors of one common scale factor
`s ∈ (0, 1]` applied to the source dimensions (aspect ratio preserved up
to integer-truncation error, and truncated toward zero); and when the
source already fits inside the bound the output is exactly the source
dimensions (no upscaling). -/
theorem containInResolution_spec (width height w h : ℤ)
    (hw : 0 < width) (hh : 0 < height) (hbw : 0 < w) (hbh : 0 < h) :
    (ContainInResolution width height w h).1 ≤ w ∧
    (ContainInResolution width height w h).2 ≤ h ∧
    (∃ s : ℚ, 0 < s ∧ s ≤ 1 ∧
      (ContainInResolution width height w h).1 = ⌊s * (width : ℚ)⌋ ∧
      (ContainInResolution width height w h).2 = ⌊s * (height : ℚ)⌋) ∧
    (width ≤ w → height ≤ h → ContainInResolution width height w h = (width, height)) := by
  have hW : (0 : ℚ) < (width : ℚ) := by exact_mod_cast hw
  have hH : (0 : ℚ) < (height : ℚ) := by exact_mod_cast hh
  have hBw : (0 : ℚ) < (w : ℚ) := by exact_mod_cast hbw
  have hBh : (0 : ℚ) < (h : ℚ) := by exact_mod_cast hbh
  have key : ∃ s : ℚ, 0 < s ∧ s ≤ 1 ∧
      ContainInResolution width height w h = (⌊s * (width : ℚ)⌋, ⌊s * (height : ℚ)⌋) ∧
      s * (width : ℚ) ≤ (w : ℚ) ∧ s * (height : ℚ) ≤ (h : ℚ) := by
    by_cases hc1 : w < width
    · have hWw : (w : ℚ) < (width : ℚ) := by exact_mod_cast hc1
      by_cases hc2 : (h : ℚ) < ((w : ℚ) / (width : ℚ)) * (height : ℚ)
      · -- width > bound, and the once-scaled height still exceeds its bound
        have hy1pos : (0 : ℚ) < ((w : ℚ) / (width : ℚ)) * (height : ℚ) :=
          mul_pos (div_pos hBw hW) hH
        refine ⟨(h : ℚ) / (height : ℚ), div_pos hBh hH, ?_, ?_, ?_, ?_⟩
        · have hhlt : (h : ℚ) < (height : ℚ) := by
            calc (h : ℚ) < ((w : ℚ) / (width : ℚ)) * (height : ℚ) := hc2
            _ < 1 * (height : ℚ) := mul_lt_mul_of_pos_right ((div_lt_one hW).mpr hWw) hH
            _ = (height : ℚ) := one_mul _
          exact le_of_lt ((div_lt_one hH).mpr hhlt)
        · have hx2 : ((h : ℚ) / (((w : ℚ) / (width : ℚ)) * (height : ℚ))) *
              (((w : ℚ) / (width : ℚ)) * (width : ℚ)) =
              ((h : ℚ) / (height : ℚ)) * (width : ℚ) := by
            field_simp
            ring
          have hy2 : ((h : ℚ) / (((w : ℚ) / (width : ℚ)) * (height : ℚ))) *
              (((w : ℚ) / (width : ℚ)) * (height : ℚ)) =
              ((h : ℚ) / (height : ℚ)) * (height : ℚ) := by
            rw [div_mul_cancel₀ _ hy1pos.ne', div_mul_cancel₀ _ hH.ne']
          have hxnn : (0 : ℚ) ≤ ((h : ℚ) / (height : ℚ)) * (width : ℚ) :=
            le_of_lt (mul_pos (div_pos hBh hH) hW)
          have hynn : (0 : ℚ) ≤ ((h : ℚ) / (height : ℚ)) * (height : ℚ) :=
            le_of_lt (mul_pos (div_pos hBh hH) hH)
          simp only [ContainInResolution, if_pos hc1, if_pos hc2, hx2, hy2,
            goTrunc_of_nonneg _ hxnn, goTrunc_of_nonneg _ hynn]
        · -- (h/height) * width ≤ w
          have hmul : (h : ℚ) * (width : ℚ) < (w : ℚ) * (height : ℚ) := by
            rw [div_mul_eq_mul_div] at hc2
            exact (lt_div_iff₀ hW).mp hc2
          rw [div_mul_eq_mul_div, div_le_iff₀ hH]
          exact le_of_lt hmul
        · rw [div_mul_cancel₀ _ hH.ne']
      · -- width > bound, the scaled height fits
        refine ⟨(w : ℚ) / (width : ℚ), div_pos hBw hW, ?_, ?_, ?_, ?_⟩
        · exact le_of_lt ((div_lt_one hW).mpr hWw)
        · have hxnn : (0 : ℚ) ≤ ((w : ℚ) / (width : ℚ)) * (width : ℚ) :=
            le_of_lt (mul_pos (div_pos hBw hW) hW)
          have hynn : (0 : ℚ) ≤ ((w : ℚ) / (width : ℚ)) * (height : ℚ) :=
            le_of_lt (mul_pos (div_pos hBw hW) hH)
          simp only [ContainInResolution, if_pos hc1, if_neg hc2,
            goTrunc_of_nonneg _ hxnn, goTrunc_of_nonneg _ hynn]
        · rw [div_mul_cancel₀ _ hW.ne']
        · exact not_lt.mp hc2
    · have hWw : (width : ℚ) ≤ (w : ℚ) := by
        exact_mod_cast not_lt.mp hc1
      by_cases hc2 : (h : ℚ) < (height : ℚ)
      · -- source width fits, source height exceeds its bound
        refine ⟨(h : ℚ) / (height : ℚ), div_pos hBh hH, ?_, ?_, ?_, ?_⟩
        · exact le_of_lt ((div_lt_one hH).mpr hc2)
        · have hxnn : (0 : ℚ) ≤ ((h : ℚ) / (height : ℚ)) * (width : ℚ) :=
            le_of_lt (mul_pos (div_pos hBh hH) hW)
          have hynn : (0 : ℚ) ≤ ((h : ℚ) / (height : ℚ)) * (height : ℚ) :=
            le_of_lt (mul_pos (div_pos hBh hH) hH)
          simp only [ContainInResolution, if_neg hc1, if_pos hc2,
            goTrunc_of_nonneg _ hxnn, goTrunc_of_nonneg _ hynn]
        · calc ((h : ℚ) / (height : ℚ)) * (width : ℚ) ≤ 1 * (width : ℚ) :=
              mul_le_mul_of_nonneg_right (le_of_lt ((div_lt_one hH).mpr hc2)) (le_of_lt hW)
          _ = (width : ℚ) := one_mul _
          _ ≤ (w : ℚ) := hWw
        · rw [div_mul_cancel₀ _ hH.ne']
      · -- the source fits inside the bound on both axes: no scaling
        refine ⟨1, one_pos, le_refl 1, ?_, ?_, ?_⟩
        · simp only [ContainInResolution, if_neg hc1, if_neg hc2, goTrunc_intCast,
            one_mul, Int.floor_intCast]
        · rw [one_mul]
          exact hWw
        · rw [one_mul]
          exact not_lt.mp hc2
  obtain ⟨s, hs0, hs1, hres, hxw, hyh⟩ := key
  refine ⟨?_, ?_, ⟨s, hs0, hs1, by rw [hres], by rw [hres]⟩, ?_⟩
  · rw [hres]
    calc ⌊s * (width : ℚ)⌋ ≤ ⌊(w : ℚ)⌋ := Int.floor_le_floor hxw
    _ = w := Int.floor_intCast w
  · rw [hres]
    calc ⌊s * (height : ℚ)⌋ ≤ ⌊(h : ℚ)⌋ := Int.floor_le_floor hyh
    _ = h := Int.floor_intCast h
  · intro h1 h2
    have hc1 : ¬(w < width) := not_lt.mpr h1
    have hc2 : ¬((h : ℚ) < (height : ℚ)) := not_lt.mpr (by exact_mod_cast h2)
    simp only [ContainInResolution, if_neg hc1, if_neg hc2, goTrunc_intCast]

end Citra

namespace Citra

/-- Witness for `containInResolution_spec` at the concrete input
`(4000, 3000, 1080, 720)`. -/
theorem containInResolution_spec_witness :
    (0 : ℤ) < 4000 ∧ (0 : ℤ) < 3000 ∧ (0 : ℤ) < 1080 ∧ (0 : ℤ) < 720 ∧
    ((ContainInResolution 4000 3000 1080 720).1 ≤ 1080 ∧
     (ContainInResolution 4000 3000 1080 720).2 ≤ 720 ∧
     (∃ s : ℚ, 0 < s ∧ s ≤ 1 ∧
       (ContainInResolution 4000 3000 1080 720).1 = ⌊s * ((4000 : ℤ) : ℚ)⌋ ∧
       (ContainInResolution 4000 3000 1080 720).2 = ⌊s * ((3000 : ℤ) : ℚ)⌋) ∧
     ((4000 : ℤ) ≤ 1080 → (3000 : ℤ) ≤ 720 →
       ContainInResolution 4000 3000 1080 720 = (4000, 3000))) :=
  ⟨by decide, by decide, by decide, by decide,
    containInResolution_spec 4000 3000 1080 720 (by decide) (by decide) (by decide) (by decide)⟩

end Citra

namespace Citra

set_option maxRecDepth 10000

/-- C5: the color sampler's step is `max(1, floor(W/100))` in the source,
not the claimed `ceil(W/100)`: at `W = 150` the source steps by 1 (hence a
150×150 grid is sampled at all 150 columns, 22500 pixels in total, against
the claimed step of 2). -/
theorem c5_step_floor_not_ceil :
    avgSteps 150 = 1 ∧ specCeilStep 150 = 2 ∧ avgSteps 150 ≠ specCeilStep 150 ∧
    (sampleIndices 150 (avgSteps 150)).length = 150 := by decide

/-- C6: parsing a 26-character all-hex string panics (out-of-bounds write
of `hex.Decode` into the 12-byte array) instead of returning a format
error. -/
theorem c6_hex_parse_panics :
    idFromString "aaaaaaaaaaaaaaaaaaaaaaaaaa" = .panicked ∧
    idFromString "aaaaaaaaaaaaaaaaaaaaaaaaaa" ≠ .formatError := by decide

/-- C9: for a record with one 600×600 cover copy, `GenerateURLs` emits the
query `size=600x600&sort=cover`, not the claimed `size=600&fit=cover`
(the bare-size form of `imageSizeString` and the `fit` parameter that
`serveImages` parses). -/
theorem c9_generated_url_query_sort :
    (GenerateURLs rowSquareCopy).2 =
      ["/images/1/ab.jpg", "/images/1/ab.jpg?size=600x600&sort=cover"] ∧
    "/images/1/ab.jpg?size=600x600&sort=cover" ≠
      "/images/1/ab.jpg?" ++ ("size=" ++ imageSizeString ⟨600, 600⟩ ++ "&fit=cover") := by
  decide

/-- C4 counterexample: for the 4000×3000 source with the example spec list,
the stored default rendition has realized dimensions 4000×3000 — not the
claimed 5000×3750 (the contain fit never upscales). -/
theorem c4_counterexample_no_upscale :
    ((SaveImage codec0 initState buf4000 specsExample "ab" 0).1.images.map
      (fun r => (r.width, r.height)) = [((4000 : ℤ), (3000 : ℤ))]) ∧
    ¬ ((SaveImage codec0 initState buf4000 specsExample "ab" 0).1.images.map
      (fun r => (r.width, r.height)) = [((5000 : ℤ), (3750 : ℤ))]) := by
  have h1 : ContainInResolution 4000 3000 1080 720 = (960, 720) := by
    norm_num [ContainInResolution, goTrunc]
  constructor
  · simp [SaveImage, GetImageSize, selectDefault, ToJPEG, ImageFitCover, ImageFitContain,
      createImagesFolder, topFolder, mkFolder, writeFile, saveCopiesLoop, saveImageCopy,
      copyFilename, GetImage, GenerateURLs, genURL, initState, buf4000, specsExample, codec0, h1]
    decide
  · simp [SaveImage, GetImageSize, selectDefault, ToJPEG, ImageFitCover, ImageFitContain,
      createImagesFolder, topFolder, mkFolder, writeFile, saveCopiesLoop, saveImageCopy,
      copyFilename, GetImage, GenerateURLs, genURL, initState, buf4000, specsExample, codec0, h1]
    decide

/-- C4 amended: for the 4000×3000 source with the example spec list, Save
stores a default rendition of realized 4000×3000 (no upscaling), and the
1080×720 contain copy resolves to 960×720 — different from the default, so
it is produced separately: two files on disk and one catalog entry. -/
theorem c4_amended_realized_dimensions :
    ((SaveImage codec0 initState buf4000 specsExample "ab" 0).1.images.map
      (fun r => (r.width, r.height, r.copies.map (fun c => (c.width, c.height))))
      = [((4000 : ℤ), (3000 : ℤ), [((960 : ℤ), (720 : ℤ))])]) ∧
    ((SaveImage codec0 initState buf4000 specsExample "ab" 0).1.files.map Prod.snd
      = ["ab.jpg", "ab_1080_720_contain.jpg"]) ∧
    ∃ out, (SaveImage codec0 initState buf4000 specsExample "ab" 0).2 = .ok out ∧
      out.row.width = 4000 ∧ out.row.height = 3000 ∧
      out.row.copies.map (fun c => (c.width, c.height, c.maxWidth, c.maxHeight))
        = [((960 : ℤ), (720 : ℤ), (1080 : ℤ), (720 : ℤ))] := by
  have h1 : ContainInResolution 4000 3000 1080 720 = (960, 720) := by
    norm_num [ContainInResolution, goTrunc]
  have h2 : ContainInResolution 4000 3000 5000 5000 = (4000, 3000) := by decide
  refine ⟨?_, ?_, ?_⟩ <;>
    simp [SaveImage, GetImageSize, selectDefault, ToJPEG, ImageFitCover, ImageFitContain,
      createImagesFolder, topFolder, mkFolder, writeFile, saveCopiesLoop, saveImageCopy,
      copyFilename, GetImage, GenerateURLs, genURL, initState, buf4000, specsExample, codec0,
      h1, h2]
  decide

end Citra

namespace Citra

theorem selectDefault_foldl_not (l : List SaveImageArg) (a0 : SaveImageArg)
    (h0 : a0.isDefault = false) (hl : ∀ a ∈ l, a.isDefault = false) :
    (l.foldl (fun acc item => if item.isDefault then item else acc) a0).isDefault = false := by
  induction l generalizing a0 with
  | nil => exact h0
  | cons a rest ih =>
    have ha : a.isDefault = false := hl a (List.mem_cons_self a rest)
    simp only [List.foldl_cons, ha, if_false]
    exact ih a0 h0 (fun b hb => hl b (List.mem_cons_of_mem a hb))

theorem selectDefault_not (l : List SaveImageArg) (hl : ∀ a ∈ l, a.isDefault = false) :
    (selectDefault l).isDefault = false :=
  selectDefault_foldl_not l _ rfl hl

/-- C7: for a spec list with no entry marked default, `SaveImage` leaves the
state (filesystem and relational store alike) unchanged and returns an
error; when the buffer is a decodable image the error is exactly the
missing-default validation error. -/
theorem c7_no_default_rejected (codec : Codec) (st : State) (buf : Buffer)
    (copies : List SaveImageArg) (newId : String) (now : ℕ)
    (hnone : ∀ a ∈ copies, a.isDefault = false) :
    (SaveImage codec st buf copies newId now).1 = st ∧
    (∃ e, (SaveImage codec st buf copies newId now).2 = .error e) ∧
    (buf.valid = true →
      (SaveImage codec st buf copies newId now).2 = .error .noDefaultImage) := by
  have hsel := selectDefault_not copies hnone
  by_cases hv : buf.valid = true
  · refine ⟨?_, ⟨.noDefaultImage, ?_⟩, fun _ => ?_⟩ <;>
      simp [SaveImage, GetImageSize, hv, hsel]
  · have hv2 : buf.valid = false := by
      cases h : buf.valid
      · rfl
      · exact absurd h hv
    refine ⟨?_, ⟨.unsupportedImage, ?_⟩, fun hc => absurd hc hv⟩ <;>
      simp [SaveImage, GetImageSize, hv2, hsel]

/-- Witness for `c7_no_default_rejected` at a concrete no-default spec
list. -/
theorem c7_no_default_rejected_witness :
    (∀ a ∈ specsNoDefault, a.isDefault = false) ∧
    ((SaveImage codec0 initState buf4000 specsNoDefault "ab" 0).1 = initState ∧
     (∃ e, (SaveImage codec0 initState buf4000 specsNoDefault "ab" 0).2 = .error e) ∧
     (buf4000.valid = true →
       (SaveImage codec0 initState buf4000 specsNoDefault "ab" 0).2 =
         .error .noDefaultImage)) :=
  ⟨by decide, c7_no_default_rejected codec0 initState buf4000 specsNoDefault "ab" 0 (by decide)⟩

theorem saveCopiesLoop_all_skip (codec : Codec) (buf : Buffer) (ow oh : ℤ) (fid : ℕ)
    (imageID : String) (l : List SaveImageArg) (st : State) (saved : List ImageCopy)
    (cs : List ImageSize) (target : ImageSize) (hmem : target ∈ cs)
    (hl : ∀ a ∈ l, a.isDefault = false → a.imageFit = ImageFitContain ∧
      ContainInResolution ow oh a.maxWidth a.maxHeight = (target.width, target.height)) :
    saveCopiesLoop codec buf ow oh fid imageID l st saved cs = (st, .ok saved) := by
  induction l with
  | nil => rfl
  | cons a rest ih =>
    have ihrest := ih (fun b hb hbd => hl b (List.mem_cons_of_mem a hb) hbd)
    by_cases hd : a.isDefault = true
    · simp only [saveCopiesLoop, hd, if_true]
      exact ihrest
    · have hd' : a.isDefault = false := by
        cases h : a.isDefault
        · rfl
        · exact absurd h hd
      obtain ⟨hfit, hres⟩ := hl a (List.mem_cons_self a rest) hd'
      have hskip : cs.any (fun s =>
          s.width == (ContainInResolution ow oh a.maxWidth a.maxHeight).1 &&
          s.height == (ContainInResolution ow oh a.maxWidth a.maxHeight).2) = true := by
        rw [hres]
        exact List.any_eq_true.mpr ⟨target, hmem, by simp⟩
      simp only [saveCopiesLoop, hd', Bool.false_eq_true, if_false, hfit, if_true,
        ImageFitContain, hskip]
      simpa [ImageFitContain] using ihrest

theorem createImagesFolder_keeps_images_files (st : State) :
    ((createImagesFolder st).1).images = st.images ∧
    ((createImagesFolder st).1).files = st.files := by
  unfold createImagesFolder mkFolder
  cases topFolder st.folders with
  | none => exact ⟨rfl, rfl⟩
  | some f =>
    simp only
    split
    · exact ⟨rfl, rfl⟩
    · exact ⟨rfl, rfl⟩

theorem find?_append_sound {α : Type} (l : List α) (row : α) (p : α → Bool)
    (hp : p row = true) : ∃ r, (l ++ [row]).find? p = some r := by
  induction l with
  | nil => exact ⟨row, by simp [List.find?, hp]⟩
  | cons a rest ih =>
    cases h : p a with
    | true => exact ⟨a, by simp [List.find?, h]⟩
    | false =>
      obtain ⟨r, hr⟩ := ih
      exact ⟨r, by simp only [List.cons_append, List.find?, h]; exact hr⟩

theorem getImage_append_some (st2 : State) (id : String) (l : List ImageRow)
    (row : ImageRow) (him : st2.images = l ++ [row]) (hid : row.id = id) :
    ∃ out, GetImage st2 id = .ok out := by
  obtain ⟨r, hr⟩ := find?_append_sound l row (fun r => r.id == id) (by simp [hid])
  simp only [GetImage, him, hr]
  exact ⟨_, rfl⟩

/-- C2: for one contain default and any number of non-default contain specs
that all resolve (via `ContainInResolution` against the original source
dimensions) to the default's realized size, `SaveImage` stores one metadata
row whose copy catalog is empty and writes exactly one file — the default
rendition — with no file and no catalog entry for the deduplicated specs. -/
theorem c2_dedup_single_file (codec : Codec) (st : State) (buf : Buffer)
    (copies : List SaveImageArg) (newId : String) (now : ℕ)
    (hvalid : buf.valid = true)
    (hdef : (selectDefault copies).isDefault = true)
    (hfit : (selectDefault copies).imageFit = ImageFitContain)
    (hall : ∀ a ∈ copies, a.isDefault = false →
      a.imageFit = ImageFitContain ∧
      ContainInResolution buf.width buf.height a.maxWidth a.maxHeight =
        ContainInResolution buf.width buf.height (selectDefault copies).maxWidth
          (selectDefault copies).maxHeight) :
    ∃ row : ImageRow,
      (SaveImage codec st buf copies newId now).1.images = st.images ++ [row] ∧
      row.copies = [] ∧
      (SaveImage codec st buf copies newId now).1.files =
        st.files ++ [((createImagesFolder st).2, newId ++ ".jpg")] ∧
      ∃ out, (SaveImage codec st buf copies newId now).2 = .ok out := by
  have hk := createImagesFolder_keeps_images_files st
  have hloop := saveCopiesLoop_all_skip codec buf buf.width buf.height
    (createImagesFolder st).2 newId copies
    (writeFile (createImagesFolder st).1 (createImagesFolder st).2 (newId ++ ".jpg")) []
    [⟨(ContainInResolution buf.width buf.height (selectDefault copies).maxWidth
        (selectDefault copies).maxHeight).1,
      (ContainInResolution buf.width buf.height (selectDefault copies).maxWidth
        (selectDefault copies).maxHeight).2⟩]
    ⟨(ContainInResolution buf.width buf.height (selectDefault copies).maxWidth
        (selectDefault copies).maxHeight).1,
      (ContainInResolution buf.width buf.height (selectDefault copies).maxWidth
        (selectDefault copies).maxHeight).2⟩
    (List.mem_singleton.mpr rfl)
    (by
      intro a ha had
      obtain ⟨h1, h2⟩ := hall a ha had
      exact ⟨h1, by rw [h2]⟩)
  have hne : ¬ (("contain" : String) = "cover") := by decide
  simp only [SaveImage, GetImageSize, hvalid, if_true, hdef, Bool.true_eq_false, if_false,
    ToJPEG, hfit, ImageFitContain, ImageFitCover, if_neg hne, hloop]
  simp only [writeFile, hk.1, hk.2]
  refine ⟨_, rfl, rfl, trivial, ?_⟩
  exact getImage_append_some _ newId st.images _ rfl rfl

/-- Witness for `c2_dedup_single_file` at a 4000×3000 source with a
5000×5000 contain default and two contain specs (6000×5000, 7000×6000)
that all realize 4000×3000. -/
theorem c2_dedup_single_file_witness :
    (buf4000.valid = true) ∧
    ((selectDefault specsDedup).isDefault = true) ∧
    ((selectDefault specsDedup).imageFit = ImageFitContain) ∧
    (∀ a ∈ specsDedup, a.isDefault = false →
      a.imageFit = ImageFitContain ∧
      ContainInResolution buf4000.width buf4000.height a.maxWidth a.maxHeight =
        ContainInResolution buf4000.width buf4000.height (selectDefault specsDedup).maxWidth
          (selectDefault specsDedup).maxHeight) ∧
    (∃ row : ImageRow,
      (SaveImage codec0 initState buf4000 specsDedup "ab" 3).1.images =
        initState.images ++ [row] ∧
      row.copies = [] ∧
      (SaveImage codec0 initState buf4000 specsDedup "ab" 3).1.files =
        initState.files ++ [((createImagesFolder initState).2, "ab" ++ ".jpg")] ∧
      ∃ out, (SaveImage codec0 initState buf4000 specsDedup "ab" 3).2 = .ok out) :=
  ⟨by decide, by decide, by decide, by decide,
    c2_dedup_single_file codec0 initState buf4000 specsDedup "ab" 3
      (by decide) (by decide) (by decide) (by decide)⟩

end Citra

namespace Citra

theorem find?_map_update (l : List ImageRow) (id : String) (now : ℕ) :
    (l.map (fun (r : ImageRow) =>
      if r.id == id then { r with isDeleted := true, deletedAt := some now } else r)).find?
        (fun r => r.id == id)
    = (l.find? (fun r => r.id == id)).map
        (fun r => { r with isDeleted := true, deletedAt := some now }) := by
  induction l with
  | nil => rfl
  | cons a rest ih =>
    cases h : (a.id == id) with
    | true =>
      simp [List.find?, h]
    | false =>
      simp only [List.map_cons, h, Bool.false_eq_true, if_false, List.find?]
      simpa [h] using ih

/-- C8: `DeleteImage` is idempotent.  Whenever a call succeeds, a further
call on the same identifier succeeds as well, returns a record with the
same is-deleted flag and the same deleted-at timestamp, and leaves the
state — relational rows and on-disk files alike — unchanged. -/
theorem c8_delete_idempotent (st : State) (id : String) (n1 n2 : ℕ) (st1 : State)
    (out1 : DBImageOut) (hfirst : DeleteImage st id n1 = (st1, .ok out1)) :
    ∃ out2, DeleteImage st1 id n2 = (st1, .ok out2) ∧
      out2.row.isDeleted = out1.row.isDeleted ∧
      out2.row.deletedAt = out1.row.deletedAt := by
  unfold DeleteImage at hfirst
  cases hget : GetImage st id with
  | error e =>
    rw [hget] at hfirst
    exact absurd (congrArg Prod.snd hfirst) (by simp)
  | ok image =>
    rw [hget] at hfirst
    by_cases hdel : image.row.isDeleted = true
    · simp only [hdel, if_true] at hfirst
      injection hfirst with h1 h2
      injection h2 with h3
      refine ⟨out1, ?_, rfl, rfl⟩
      rw [← h1]
      have hdel1 : out1.row.isDeleted = true := h3 ▸ hdel
      simp only [DeleteImage, hget, h3, hdel1, if_true]
    · have hdel2 : image.row.isDeleted = false := by
        cases h : image.row.isDeleted
        · rfl
        · exact absurd h hdel
      simp only [hdel2, Bool.false_eq_true, if_false] at hfirst
      injection hfirst with h1 h2
      injection h2 with h3
      unfold GetImage at hget
      cases hfind : List.find? (fun r => r.id == id) st.images with
      | none =>
        rw [hfind] at hget
        exact absurd hget (by simp)
      | some r =>
        rw [hfind] at hget
        injection hget with h4
        subst h1
        subst h3
        subst h4
        have hg2 : GetImage
            { st with
              images := st.images.map (fun (x : ImageRow) =>
                if x.id == id then { x with isDeleted := true, deletedAt := some n1 } else x),
              files := st.files.filter (fun f =>
                !(f.1 == r.folderId && r.id.data.isPrefixOf f.2.data)) } id =
            .ok ⟨{ r with isDeleted := true, deletedAt := some n1 },
              (GenerateURLs { r with isDeleted := true, deletedAt := some n1 }).1,
              (GenerateURLs { r with isDeleted := true, deletedAt := some n1 }).2⟩ := by
          simp only [GetImage, find?_map_update, hfind, Option.map]
        refine ⟨_, ?_, rfl, rfl⟩
        simp only [DeleteImage, hg2, if_true]
        rfl

/-- Witness for `c8_delete_idempotent`: deleting the concrete record of
`stLive` once, then deleting it again. -/
theorem c8_delete_idempotent_witness :
    (DeleteImage stLive "ab" 5 = (stLiveDeleted, .ok outLiveDeleted)) ∧
    (∃ out2, DeleteImage stLiveDeleted "ab" 9 = (stLiveDeleted, .ok out2) ∧
      out2.row.isDeleted = outLiveDeleted.row.isDeleted ∧
      out2.row.deletedAt = outLiveDeleted.row.deletedAt) :=
  ⟨by decide, c8_delete_idempotent stLive "ab" 5 9 stLiveDeleted outLiveDeleted (by decide)⟩

end Citra

namespace Citra

theorem accumPixel_nonneg (acc : ℚ × ℚ × ℚ) (c : ℕ × ℕ × ℕ)
    (h : 0 ≤ acc.1 ∧ 0 ≤ acc.2.1 ∧ 0 ≤ acc.2.2) :
    0 ≤ (accumPixel acc c).1 ∧ 0 ≤ (accumPixel acc c).2.1 ∧ 0 ≤ (accumPixel acc c).2.2 := by
  obtain ⟨h1, h2, h3⟩ := h
  refine ⟨?_, ?_, ?_⟩ <;> unfold accumPixel <;> positivity

theorem foldl_nonneg {α : Type} (f : (ℚ × ℚ × ℚ) → α → ℚ × ℚ × ℚ)
    (hf : ∀ a x, (0 ≤ a.1 ∧ 0 ≤ a.2.1 ∧ 0 ≤ a.2.2) →
      (0 ≤ (f a x).1 ∧ 0 ≤ (f a x).2.1 ∧ 0 ≤ (f a x).2.2))
    (l : List α) (a : ℚ × ℚ × ℚ) (ha : 0 ≤ a.1 ∧ 0 ≤ a.2.1 ∧ 0 ≤ a.2.2) :
    0 ≤ (l.foldl f a).1 ∧ 0 ≤ (l.foldl f a).2.1 ∧ 0 ≤ (l.foldl f a).2.2 := by
  induction l generalizing a with
  | nil => exact ha
  | cons x rest ih => exact ih (f a x) (hf a x ha)

theorem averageColorFold_nonneg (g : PixelGrid) :
    0 ≤ (averageColorFold g).1 ∧ 0 ≤ (averageColorFold g).2.1 ∧
    0 ≤ (averageColorFold g).2.2 := by
  unfold averageColorFold
  refine foldl_nonneg _ ?_ _ _ ⟨le_refl 0, le_refl 0, le_refl 0⟩
  intro a i ha
  exact foldl_nonneg _ (fun a2 j ha2 => accumPixel_nonneg a2 (g.pixel i j) ha2) _ a ha

/-- C10: each channel of `AverageColor` lies in [0, 255] and the three
channels sum to at most 255: the output is a normalized proportion of the
three accumulators scaled by 255, not three independent averages. -/
theorem c10_average_color_bounds (g : PixelGrid) :
    0 ≤ (AverageColor g).R ∧ (AverageColor g).R ≤ 255 ∧
    0 ≤ (AverageColor g).G ∧ (AverageColor g).G ≤ 255 ∧
    0 ≤ (AverageColor g).B ∧ (AverageColor g).B ≤ 255 ∧
    (AverageColor g).R + (AverageColor g).G + (AverageColor g).B ≤ 255 := by
  obtain ⟨hr, hg, hb⟩ := averageColorFold_nonneg g
  unfold AverageColor
  by_cases hx : 0 < (averageColorFold g).1 + (averageColorFold g).2.1 + (averageColorFold g).2.2
  · simp only [hx, if_true]
    set r := (averageColorFold g).1 with hrdef
    set gq := (averageColorFold g).2.1 with hgdef
    set b := (averageColorFold g).2.2 with hbdef
    set x := r + gq + b with hxdef
    have hxne : x ≠ 0 := ne_of_gt hx
    have hrx : r ≤ x := by simp only [hxdef]; linarith
    have hgx : gq ≤ x := by simp only [hxdef]; linarith
    have hbx : b ≤ x := by simp only [hxdef]; linarith
    have key : ∀ q : ℚ, 0 ≤ q → q ≤ x →
        0 ≤ goTrunc (q / x * 255) ∧ goTrunc (q / x * 255) ≤ 255 := by
      intro q hq hqx
      have hnn : (0 : ℚ) ≤ q / x * 255 := by positivity
      rw [goTrunc_of_nonneg _ hnn]
      constructor
      · exact Int.floor_nonneg.mpr hnn
      · have hle : q / x * 255 ≤ 255 := by
          have h1 : q / x ≤ 1 := (div_le_one hx).mpr hqx
          calc q / x * 255 ≤ 1 * 255 := by
                exact mul_le_mul_of_nonneg_right h1 (by norm_num)
          _ = 255 := one_mul _
        calc ⌊q / x * 255⌋ ≤ ⌊(255 : ℚ)⌋ := Int.floor_le_floor hle
        _ = 255 := by norm_num
    have hsum : r / x * 255 + gq / x * 255 + b / x * 255 = 255 := by
      field_simp
      ring
    obtain ⟨hr0, hr255⟩ := key r hr hrx
    obtain ⟨hg0, hg255⟩ := key gq hg hgx
    obtain ⟨hb0, hb255⟩ := key b hb hbx
    refine ⟨hr0, hr255, hg0, hg255, hb0, hb255, ?_⟩
    have hfr := Int.floor_le (r / x * 255)
    have hfg := Int.floor_le (gq / x * 255)
    have hfb := Int.floor_le (b / x * 255)
    have hnr : (0 : ℚ) ≤ r / x * 255 := by positivity
    have hng : (0 : ℚ) ≤ gq / x * 255 := by positivity
    have hnb : (0 : ℚ) ≤ b / x * 255 := by positivity
    rw [goTrunc_of_nonneg _ hnr, goTrunc_of_nonneg _ hng, goTrunc_of_nonneg _ hnb]
    have hcast : ((⌊r / x * 255⌋ + ⌊gq / x * 255⌋ + ⌊b / x * 255⌋ : ℤ) : ℚ) ≤ 255 := by
      push_cast
      linarith
    exact_mod_cast hcast
  · simp only [hx, if_false]
    norm_num

end Citra

namespace Citra

set_option maxRecDepth 10000

theorem getImage_append_isOk (st2 : State) (id : String) (l : List ImageRow)
    (row : ImageRow) (him : st2.images = l ++ [row]) (hid : row.id = id) :
    (GetImage st2 id).isOk = true := by
  obtain ⟨o, ho⟩ := getImage_append_some st2 id l row him hid
  rw [ho]
  rfl

theorem dedup_replicate_one (n : ℕ) : (List.replicate (n + 1) (1 : ℕ)).dedup = [1] := by
  induction n with
  | zero => rfl
  | succ m ihm =>
    rw [List.replicate_succ, List.dedup_cons_of_mem (by simp [List.mem_replicate])]
    rw [List.replicate_succ] at ihm
    exact ihm

theorem saveStep_one_folder (st : State) (id : String) (now : ℕ)
    (hf : st.folders = [⟨1, 0⟩]) :
    (SaveImage codec0 st buf4000 specsOneDefault id now).1.folders = [⟨1, 0⟩] ∧
    (SaveImage codec0 st buf4000 specsOneDefault id now).1.images.map ImageRow.folderId =
      st.images.map ImageRow.folderId ++ [1] ∧
    (SaveImage codec0 st buf4000 specsOneDefault id now).2.isOk = true := by
  have hcir : ContainInResolution 4000 3000 5000 5000 = (4000, 3000) := by decide
  have hcf : createImagesFolder st = (st, 1) := by
    simp [createImagesFolder, topFolder, hf, MaxImagesPerFolder]
  have hne : ¬ (("contain" : String) = "cover") := by decide
  refine ⟨?_, ?_, ?_⟩ <;>
    simp only [SaveImage, GetImageSize, buf4000, specsOneDefault, selectDefault, codec0,
      List.foldl_cons, List.foldl_nil, if_true, Bool.true_eq_false, if_false, ToJPEG,
      ImageFitCover, ImageFitContain, if_neg hne, hcir, hcf, saveCopiesLoop, writeFile, hf]
  · simp [List.map_append]
  · exact getImage_append_isOk _ id st.images _ rfl rfl

theorem runSaves_one_folder (n : ℕ) :
    (runSaves codec0 buf4000 specsOneDefault (n + 1)).folders = [⟨1, 0⟩] ∧
    (runSaves codec0 buf4000 specsOneDefault (n + 1)).images.map ImageRow.folderId =
      List.replicate (n + 1) 1 ∧
    (SaveImage codec0 (runSaves codec0 buf4000 specsOneDefault n) buf4000
      specsOneDefault (toString n) n).2.isOk = true := by
  induction n with
  | zero => exact ⟨by decide, by decide, by decide⟩
  | succ n ih =>
    obtain ⟨hf, him, _⟩ := ih
    obtain ⟨hf2, him2, hok2⟩ := saveStep_one_folder
      (runSaves codec0 buf4000 specsOneDefault (n + 1)) (toString (n + 1)) (n + 1) hf
    refine ⟨hf2, ?_, hok2⟩
    show (SaveImage codec0 (runSaves codec0 buf4000 specsOneDefault (n + 1)) buf4000
      specsOneDefault (toString (n + 1)) (n + 1)).1.images.map ImageRow.folderId = _
    rw [him2, him, ← List.replicate_succ']

/-- C1: the shard counter `images_count` is never incremented by any code
path, so after 5001 sequential successful saves from the empty store every
image row sits in shard 1, the store still holds the single folder row
`(id 1, count 0)`, and only one distinct shard id has been used — the
claimed capacity rotation to a second shard never happens. -/
theorem c1_counter_never_incremented :
    (runSaves codec0 buf4000 specsOneDefault 5001).folders.map Folder.id = [1] ∧
    (runSaves codec0 buf4000 specsOneDefault 5001).folders.map Folder.imagesCount = [0] ∧
    (runSaves codec0 buf4000 specsOneDefault 5001).images.map ImageRow.folderId =
      List.replicate 5001 1 ∧
    ((runSaves codec0 buf4000 specsOneDefault 5001).images.map ImageRow.folderId).dedup
      = [1] ∧
    (∀ k, k < 5001 → (SaveImage codec0 (runSaves codec0 buf4000 specsOneDefault k) buf4000
      specsOneDefault (toString k) k).2.isOk = true) := by
  obtain ⟨hf, him, _⟩ := runSaves_one_folder 5000
  refine ⟨by rw [hf]; rfl, by rw [hf]; rfl, him, ?_, ?_⟩
  · rw [him]
    exact dedup_replicate_one 5000
  · intro k hk
    cases k with
    | zero => decide
    | succ m => exact (runSaves_one_folder (m + 1)).2.2

end Citra
